import Mathlib

/-!
# Verification of the Merkle Patricia Trie implementation

Shallow embedding of the trie engine of `merklepatriciatriev2.go` (type `MPT`
with node type `Node`, and the functions `Get`, `put`/`Put`, `del`/`Del`,
`Commit`, `hashNode`, `Proof`, `keyToNibbles`, `commonPrefixLength`).

Modelling conventions:
* Go bytes and nibbles are `Nat`; Go byte slices are `List Nat`.
* A Go `nil` byte slice is `Option.none` where the code distinguishes nil
  (the `Value` field of a node); slices that are never nil are plain lists.
* A Go `nil` `*Node` pointer is the constructor `Node.null`.
* The 16-slot `Children` array is a total function `Nat → Node`; the source
  only ever indexes it with nibbles, which are below 16 (proved for
  `keyToNibbles` output below), so out-of-range behaviour never arises.
* The source mutates nodes in place; since the tree is single-owner
  (each node has exactly one parent), the mutation is modelled by returning
  the replacement subtree, exactly as the recursive Go functions already do
  through their return values.
-/

namespace MPT

inductive Node where
  | null : Node
  | branch (children : Nat → Node) (value : Option (List Nat)) : Node
  | ext (key : List Nat) (next : Node) : Node
  | leaf (key : List Nat) (value : Option (List Nat)) : Node

/-- `keyToNibbles`: one byte becomes `[b / 16, b % 16]`, high nibble first. -/
def keyToNibbles : List Nat → List Nat
  | [] => []
  | b :: bs => b / 16 :: b % 16 :: keyToNibbles bs

/-- The traversal loop of `MPT.Get`, one recursive call per loop iteration.
`none` is the `key not found` error; `some v` is the returned slice `v`
(`v = none` is a returned nil slice, which Go pairs with a nil error). -/
def get : Node → List Nat → Option (Option (List Nat))
  | .null, _ => none
  | .branch _ v, [] => some v
  | .branch cs _, n :: rest => get (cs n) rest
  | .ext key next, nibbles =>
      if key.isPrefixOf nibbles then get next (nibbles.drop key.length) else none
  | .leaf key v, nibbles => if nibbles = key then some v else none

/-- `MPT.Get`: convert the key to nibbles and walk from the root. -/
def Get (root : Node) (key : List Nat) : Option (Option (List Nat)) :=
  get root (keyToNibbles key)

/-- Assignment `Children[i] = x` on the children array. -/
def updateChild (cs : Nat → Node) (i : Nat) (x : Node) : Nat → Node :=
  fun j => if j = i then x else cs j

/-- The zero value of the `Children` array of a fresh `&Node{Type: BranchNode}`. -/
def emptyChildren : Nat → Node := fun _ => .null

/-- `commonPrefixLength`: index of the first mismatch, or the shorter length. -/
def commonPrefixLength : List Nat → List Nat → Nat
  | a :: as, b :: bs => if a = b then commonPrefixLength as bs + 1 else 0
  | _, _ => 0

/-- `MPT.put`. Two recursive calls of the source act on a child slot that is
provably nil at that program point and are therefore inlined to their
`node == nil` result `&Node{Type: LeafNode, Key: nibbles, Value: value}`:
* in the Extension split, `newBranch.Children[nibbles[0]]` with
  `nibbles[0] = nibbles[L] ≠ prefix[L]` (`L` is the first mismatch index),
  while only slot `prefix[L]` has been assigned;
* in the Leaf split, `newBranch.Children[nibbles[L]]` with
  `nibbles[L] ≠ node.Key[L]` for the same reason, while at most slot
  `node.Key[L]` has been assigned. -/
def put : Node → List Nat → List Nat → Node
  | .null, nibbles, value => .leaf nibbles (some value)
  | .branch cs _, [], value => .branch cs (some value)
  | .branch cs bval, n :: rest, value =>
      .branch (updateChild cs n (put (cs n) rest value)) bval
  | .ext key next, nibbles, value =>
      let L := commonPrefixLength nibbles key
      if L = key.length then
        .ext key (put next (nibbles.drop L) value)
      else
        let newBranch := updateChild emptyChildren (key.getD L 0) next
        match nibbles.drop L with
        | [] => .ext (key.take L) (.branch newBranch (some value))
        | n :: rest =>
            .ext (key.take L)
              (.branch (updateChild newBranch n (.leaf rest (some value))) none)
  | .leaf key lval, nibbles, value =>
      if nibbles = key then .leaf key (some value)
      else
        let L := commonPrefixLength nibbles key
        let cs1 : Nat → Node :=
          if L = key.length then emptyChildren
          else updateChild emptyChildren (key.getD L 0) (.leaf (key.drop (L + 1)) lval)
        let v1 : Option (List Nat) := if L = key.length then lval else none
        let cs2 : Nat → Node :=
          if L = nibbles.length then cs1
          else updateChild cs1 (nibbles.getD L 0) (.leaf (nibbles.drop (L + 1)) (some value))
        let v2 : Option (List Nat) := if L = nibbles.length then some value else v1
        if L = 0 then .branch cs2 v2 else .ext (nibbles.take L) (.branch cs2 v2)

/-- `MPT.Put`. -/
def Put (root : Node) (key value : List Nat) : Node :=
  put root (keyToNibbles key) value

/-- `MPT.del`. The Go function returns `(nil, err)` on every error path, and
every caller that receives an error itself returns `(nil, err)` after storing
the nil into its child slot, so the erroring call chain is `none` here. -/
def del : Node → List Nat → Option Node
  | .null, _ => none
  | .branch cs _, [] => some (.branch cs none)
  | .branch cs bval, n :: rest =>
      match del (cs n) rest with
      | none => none
      | some c => some (.branch (updateChild cs n c) bval)
  | .ext key next, nibbles =>
      if key.isPrefixOf nibbles then
        match del next (nibbles.drop key.length) with
        | none => none
        | some m => some (.ext key m)
      else none
  | .leaf key _, nibbles => if nibbles = key then some .null else none

/-- `MPT.Del`: `t.root, err = t.del(t.root, nibbles)` assigns the returned
node to the root unconditionally, so a failed `del` leaves `t.root = nil`.
The `Bool` component is `true` iff the `key not found` error was returned. -/
def Del (root : Node) (key : List Nat) : Node × Bool :=
  match del root (keyToNibbles key) with
  | none => (.null, true)
  | some r => (r, false)

/-! ## SHA-256 (`crypto/sha256.Sum256`), FIPS 180-4, over byte lists. -/

def w32 (n : Nat) : Nat := n % 4294967296

def rotr (x n : Nat) : Nat := w32 ((x >>> n) ||| (x <<< (32 - n)))

def bsig0 (x : Nat) : Nat := rotr x 2 ^^^ rotr x 13 ^^^ rotr x 22

def bsig1 (x : Nat) : Nat := rotr x 6 ^^^ rotr x 11 ^^^ rotr x 25

def ssig0 (x : Nat) : Nat := rotr x 7 ^^^ rotr x 18 ^^^ (x >>> 3)

def ssig1 (x : Nat) : Nat := rotr x 17 ^^^ rotr x 19 ^^^ (x >>> 10)

def shaKA : List Nat :=
  [1116352408, 1899447441, 3049323471, 3921009573, 961987163, 1508970993,
   2453635748, 2870763221, 3624381080, 310598401, 607225278, 1426881987,
   1925078388, 2162078206, 2614888103, 3248222580, 3835390401, 4022224774,
   264347078, 604807628, 770255983, 1249150122, 1555081692, 1996064986,
   2554220882, 2821834349, 2952996808, 3210313671, 3336571891, 3584528711,
   113926993, 338241895, 666307205, 773529912, 1294757372, 1396182291,
   1695183700, 1986661051, 2177026350, 2456956037, 2730485921, 2820302411,
   3259730800, 3345764771, 3516065817, 3600352804, 4094571909, 275423344]

def shaKB : List Nat :=
  [430227734, 506948616, 659060556, 883997877, 958139571, 1322822218,
   1537002063, 1747873779, 1955562222, 2024104815, 2227730452, 2361852424,
   2428436474, 2756734187, 3204031479, 3329325298]

def shaH0 : List Nat :=
  [1779033703, 3144134277, 1013904242, 2773480762, 1359893119, 2600822924,
   528734635, 1541459225]

/-- Rounds 48..63 of the SHA-256 compression: the message-schedule window
`w0..w15` holds `W[t..t+15]`; each round consumes `w0` and shifts. -/
def shaRoundsB : List Nat →
    Nat → Nat → Nat → Nat → Nat → Nat → Nat → Nat →
    Nat → Nat → Nat → Nat → Nat → Nat → Nat → Nat →
    Nat → Nat → Nat → Nat → Nat → Nat → Nat → Nat → List Nat
  | [], _, _, _, _, _, _, _, _, _, _, _, _, _, _, _, _, a, b, c, d, e, f, g, h =>
      [a, b, c, d, e, f, g, h]
  | k :: ks, w0, w1, w2, w3, w4, w5, w6, w7, w8, w9, w10, w11, w12, w13, w14, w15,
    a, b, c, d, e, f, g, h =>
      let t1 := w32 (h + bsig1 e + ((e &&& f) ^^^ ((4294967295 ^^^ e) &&& g)) + k + w0)
      let t2 := w32 (bsig0 a + ((a &&& b) ^^^ (a &&& c) ^^^ (b &&& c)))
      shaRoundsB ks w1 w2 w3 w4 w5 w6 w7 w8 w9 w10 w11 w12 w13 w14 w15 0
        (w32 (t1 + t2)) a b c (w32 (d + t1)) e f g

/-- Rounds 0..47 of the SHA-256 compression: like `shaRoundsB` but also
extends the schedule with `W[t+16] = ssig1 W[t+14] + W[t+9] + ssig0 W[t+1] + W[t]`. -/
def shaRoundsA : List Nat →
    Nat → Nat → Nat → Nat → Nat → Nat → Nat → Nat →
    Nat → Nat → Nat → Nat → Nat → Nat → Nat → Nat →
    Nat → Nat → Nat → Nat → Nat → Nat → Nat → Nat → List Nat
  | [], w0, w1, w2, w3, w4, w5, w6, w7, w8, w9, w10, w11, w12, w13, w14, w15,
    a, b, c, d, e, f, g, h =>
      shaRoundsB shaKB w0 w1 w2 w3 w4 w5 w6 w7 w8 w9 w10 w11 w12 w13 w14 w15
        a b c d e f g h
  | k :: ks, w0, w1, w2, w3, w4, w5, w6, w7, w8, w9, w10, w11, w12, w13, w14, w15,
    a, b, c, d, e, f, g, h =>
      let nw := w32 (ssig1 w14 + w9 + ssig0 w1 + w0)
      let t1 := w32 (h + bsig1 e + ((e &&& f) ^^^ ((4294967295 ^^^ e) &&& g)) + k + w0)
      let t2 := w32 (bsig0 a + ((a &&& b) ^^^ (a &&& c) ^^^ (b &&& c)))
      shaRoundsA ks w1 w2 w3 w4 w5 w6 w7 w8 w9 w10 w11 w12 w13 w14 w15 nw
        (w32 (t1 + t2)) a b c (w32 (d + t1)) e f g

/-- Big-endian 4-byte words of a byte list. -/
def toWords : List Nat → List Nat
  | a :: b :: c :: d :: rest => (a * 16777216 + b * 65536 + c * 256 + d) :: toWords rest
  | _ => []

def processBlock (H : List Nat) (block : List Nat) : List Nat :=
  match H, toWords block with
  | [a, b, c, d, e, f, g, h],
    [w0, w1, w2, w3, w4, w5, w6, w7, w8, w9, w10, w11, w12, w13, w14, w15] =>
      List.zipWith (fun x y => w32 (x + y)) H
        (shaRoundsA shaKA w0 w1 w2 w3 w4 w5 w6 w7 w8 w9 w10 w11 w12 w13 w14 w15
          a b c d e f g h)
  | _, _ => H

def processBlocks : Nat → List Nat → List Nat → List Nat
  | 0, H, _ => H
  | n + 1, H, msg => processBlocks n (processBlock H (msg.take 64)) (msg.drop 64)

def lenBytes : Nat → Nat → List Nat
  | 0, _ => []
  | k + 1, n => (n >>> (8 * k)) % 256 :: lenBytes k n

def sha256pad (msg : List Nat) : List Nat :=
  msg ++ [128] ++ List.replicate ((119 - msg.length % 64) % 64) 0 ++ lenBytes 8 (8 * msg.length)

def wordToBytes (n : Nat) : List Nat :=
  [(n >>> 24) % 256, (n >>> 16) % 256, (n >>> 8) % 256, n % 256]

def sha256 (msg : List Nat) : List Nat :=
  let padded := sha256pad msg
  ((processBlocks (padded.length / 64) shaH0 padded).map wordToBytes).flatten

/-! ## Hashing and proofs (`hashNode`, `Commit`, `Proof`). -/

/-- One 32-byte slot of the branch hash buffer: `copy(hashes[i*32:(i+1)*32], h)`
copies at most 32 bytes and leaves the remaining zero bytes in place. -/
def fit32 (l : List Nat) : List Nat :=
  l.take 32 ++ List.replicate (32 - l.length) 0

/-- The final 32-byte slot: `if node.Value != nil { copy(hashes[16*32:], v) }`;
an absent value leaves the 32 zero bytes of `make`. -/
def valueSlot : Option (List Nat) → List Nat
  | none => List.replicate 32 0
  | some v => fit32 v

/-- `MPT.hashNode`: branch hashes a 544-byte buffer of the 16 child hashes
(nil child contributing its zero slot) plus the value slot; extension hashes
`Key ++ hash(Next)`; leaf hashes `Key ++ Value`. -/
def hashNode : Node → List Nat
  | .null => []
  | .branch cs v =>
      sha256 (fit32 (hashNode (cs 0)) ++ fit32 (hashNode (cs 1)) ++
              fit32 (hashNode (cs 2)) ++ fit32 (hashNode (cs 3)) ++
              fit32 (hashNode (cs 4)) ++ fit32 (hashNode (cs 5)) ++
              fit32 (hashNode (cs 6)) ++ fit32 (hashNode (cs 7)) ++
              fit32 (hashNode (cs 8)) ++ fit32 (hashNode (cs 9)) ++
              fit32 (hashNode (cs 10)) ++ fit32 (hashNode (cs 11)) ++
              fit32 (hashNode (cs 12)) ++ fit32 (hashNode (cs 13)) ++
              fit32 (hashNode (cs 14)) ++ fit32 (hashNode (cs 15)) ++ valueSlot v)
  | .ext key next => sha256 (key ++ hashNode next)
  | .leaf key v => sha256 (key ++ v.getD [])

/-- The byte string `hashNode` feeds to `sha256.Sum256` for a given node:
the 544-byte buffer for a branch, `Key ++ hash(Next)` for an extension,
`Key ++ Value` for a leaf. -/
def hashInput : Node → List Nat
  | .null => []
  | .branch cs v =>
      fit32 (hashNode (cs 0)) ++ fit32 (hashNode (cs 1)) ++
      fit32 (hashNode (cs 2)) ++ fit32 (hashNode (cs 3)) ++
      fit32 (hashNode (cs 4)) ++ fit32 (hashNode (cs 5)) ++
      fit32 (hashNode (cs 6)) ++ fit32 (hashNode (cs 7)) ++
      fit32 (hashNode (cs 8)) ++ fit32 (hashNode (cs 9)) ++
      fit32 (hashNode (cs 10)) ++ fit32 (hashNode (cs 11)) ++
      fit32 (hashNode (cs 12)) ++ fit32 (hashNode (cs 13)) ++
      fit32 (hashNode (cs 14)) ++ fit32 (hashNode (cs 15)) ++ valueSlot v
  | .ext key next => key ++ hashNode next
  | .leaf key v => key ++ v.getD []

/-- `MPT.Commit`: nil root returns nil, otherwise the root hash. The call
`t.storage.Put(rootHash, rootHash)` only stores a self-mapping of the hash
and does not affect the returned value, so storage is not modelled. -/
def Commit : Node → List Nat
  | .null => []
  | root => hashNode root

/-- The traversal loop of `MPT.Proof`, accumulating one `hashNode` entry for
every visited node except a branch at which the nibble path ends (the source
returns the accumulated proof before appending in that case). -/
def proofN : Node → List Nat → Option (List (List Nat))
  | .null, _ => none
  | .branch _ _, [] => some []
  | .branch cs v, n :: rest =>
      (proofN (cs n) rest).map (fun p => hashNode (.branch cs v) :: p)
  | .ext key next, nibbles =>
      if key.isPrefixOf nibbles then
        (proofN next (nibbles.drop key.length)).map
          (fun p => hashNode (.ext key next) :: p)
      else none
  | .leaf key v, nibbles =>
      if nibbles = key then some [hashNode (.leaf key v)] else none

/-- `MPT.Proof`. -/
def Proof (root : Node) (key : List Nat) : Option (List (List Nat)) :=
  proofN root (keyToNibbles key)

/-! ## Spec-side definitions used to state the claims. -/

/-- Modelled from the spec: the ordered sequence of nodes `Get` visits on a
successful root-to-target walk (`none` when `Get` fails). It follows the
walk of `get` literally, recording every node entered. -/
def getVisited : Node → List Nat → Option (List Node)
  | .null, _ => none
  | .branch cs v, [] => some [.branch cs v]
  | .branch cs v, n :: rest =>
      (getVisited (cs n) rest).map (fun p => Node.branch cs v :: p)
  | .ext key next, nibbles =>
      if key.isPrefixOf nibbles then
        (getVisited next (nibbles.drop key.length)).map
          (fun p => Node.ext key next :: p)
      else none
  | .leaf key v, nibbles => if nibbles = key then some [.leaf key v] else none

def Node.isBranch : Node → Bool
  | .branch _ _ => true
  | _ => false

def Node.isNull : Node → Bool
  | .null => true
  | _ => false

/-- Drop the last element of a visit path when it is a branch node. -/
def trimTerminalBranch : List Node → List Node
  | [] => []
  | [x] => if x.isBranch then [] else [x]
  | x :: y :: rest => x :: trimTerminalBranch (y :: rest)

/-- Number of non-nil entries of a children array. -/
def countChildren (cs : Nat → Node) : Nat :=
  ((List.range 16).filter (fun i => !(cs i).isNull)).length

/-- Some branch reachable from this node has exactly one non-nil child and
no value. -/
def badBranch : Node → Bool
  | .null => false
  | .branch cs v =>
      (countChildren cs == 1 && v.isNone) ||
      badBranch (cs 0) || badBranch (cs 1) || badBranch (cs 2) || badBranch (cs 3) ||
      badBranch (cs 4) || badBranch (cs 5) || badBranch (cs 6) || badBranch (cs 7) ||
      badBranch (cs 8) || badBranch (cs 9) || badBranch (cs 10) || badBranch (cs 11) ||
      badBranch (cs 12) || badBranch (cs 13) || badBranch (cs 14) || badBranch (cs 15)
  | .ext _ next => badBranch next
  | .leaf _ _ => false

/-- Some extension reachable from this node has an empty shared path. -/
def emptyExt : Node → Bool
  | .null => false
  | .branch cs _ =>
      emptyExt (cs 0) || emptyExt (cs 1) || emptyExt (cs 2) || emptyExt (cs 3) ||
      emptyExt (cs 4) || emptyExt (cs 5) || emptyExt (cs 6) || emptyExt (cs 7) ||
      emptyExt (cs 8) || emptyExt (cs 9) || emptyExt (cs 10) || emptyExt (cs 11) ||
      emptyExt (cs 12) || emptyExt (cs 13) || emptyExt (cs 14) || emptyExt (cs 15)
  | .ext key next => key.isEmpty || emptyExt next
  | .leaf _ _ => false

/-! ## Concrete tries used by the claims.
Key bytes: `"a" = [97]`, `"ab" = [97, 98]`, `"ac" = [97, 99]`, `"z" = [122]`,
`"key1" = [107, 101, 121, 49]`, `"key2" = [107, 101, 121, 50]`. -/

/-- `Put("ab", [1]); Put("ac", [2])` on an empty trie. -/
def trieAB : Node := Put (Put .null [97, 98] [1]) [97, 99] [2]

/-- `trieAB` then `Put("z", [3])`. -/
def trieABZ : Node := Put trieAB [122] [3]

/-- The same three pairs inserted in the order `"z"`, `"ab"`, `"ac"`. -/
def trieZAB : Node := Put (Put (Put .null [122] [3]) [97, 98] [1]) [97, 99] [2]

/-- `Put("a", [1])` on an empty trie. -/
def trieA : Node := Put .null [97] [1]

/-- `Put("a", [1]); Put("ab", [2])` on an empty trie: the key `"a"` terminates
at the branch under the extension. -/
def trieAAB : Node := Put (Put .null [97] [1]) [97, 98] [2]

/-- `Put("key1", [1]); Put("key2", [2])` on an empty trie. -/
def trieKey12 : Node := Put (Put .null [107, 101, 121, 49] [1]) [107, 101, 121, 50] [2]

/-! ## Claims. -/

/-- C1: the claim fails on the code. The extension split of `put` attaches the
old `Next` subtree directly at `newBranch.Children[prefix[L]]`, dropping the
remainder `prefix[L+1:]` of the shared path. Concretely, after
`Put("ab", [1]); Put("ac", [2])` the key `"ab"` is retrievable, but a further
`Put("z", [3])` (no common prefix with the extension key) reroots the old
branch one nibble below the root and `Get("ab")` fails with `key not found`
even though `"ab"` was never overwritten or deleted. -/
theorem put_on_other_key_breaks_roundtrip :
    Get trieAB [97, 98] = some (some [1]) ∧ Get trieABZ [97, 98] = none :=
  ⟨rfl, rfl⟩

/-- C2: the claim fails on the code. `t.del` assigns its result into the
child slot (and `Del` into `t.root`) before checking the error, and every
error path returns a nil node, so a `Del` that fails with `key not found`
replaces the whole tree by nil. After `Put("a", [1])`, the failing
`Del("b")` returns the error and empties the trie: `Get("a")` fails
afterwards although it succeeded before. -/
theorem failed_del_erases_tree :
    (Del trieA [98]).2 = true ∧
    Get trieA [97] = some (some [1]) ∧
    Get (Del trieA [98]).1 [97] = none :=
  ⟨rfl, rfl, rfl⟩

/-- C3: the claim fails on the code. For a key whose nibble path terminates at
a branch, `del` clears the branch value and `Get` then returns the nil value
with a nil error instead of the `key not found` error: after
`Put("a", [1]); Put("ab", [2])`, `Del("a")` succeeds, and `Get("a")` returns
`(nil, nil)` (modelled `some none`), not the `NotFound` failure the claim
requires; the other key is unaffected. -/
theorem del_at_branch_then_get_returns_nil_without_error :
    (Del trieAAB [97]).2 = false ∧
    Get (Del trieAAB [97]).1 [97] = some none ∧
    Get (Del trieAAB [97]).1 [97, 98] = some (some [2]) :=
  ⟨rfl, rfl, rfl⟩

/-- C4: the claim fails on the code. `del` performs no structural collapsing:
after `Put("ab", [1]); Put("ac", [2])`, deleting `"ac"` succeeds and leaves a
branch with exactly one remaining child and no value reachable from the
root. -/
theorem del_leaves_single_child_branch :
    (Del trieAB [97, 99]).2 = false ∧ badBranch (Del trieAB [97, 99]).1 = true :=
  ⟨rfl, rfl⟩

set_option maxRecDepth 100000 in
set_option maxHeartbeats 4000000 in
/-- C5: the claim fails on the code. Inserting the same three pairs
`("ab", [1])`, `("ac", [2])`, `("z", [3])` in two different orders yields
different root hashes from `Commit` (a consequence of the extension-split
defect: one order even loses the key `"ab"`, as the last two conjuncts
show). -/
theorem commit_depends_on_insertion_order :
    Commit trieABZ ≠ Commit trieZAB ∧
    Get trieABZ [97, 98] = none ∧ Get trieZAB [97, 98] = some (some [1]) :=
  ⟨by decide, rfl, rfl⟩

/-- C6: the claim fails on the code. The extension split of `put` sets
`node.Key = prefix[:L]` with no special case for `L == 0` (only the leaf
split has one), so inserting `"z"` into the trie holding `"ab"` and `"ac"`
(whose root is an extension with shared path `[6, 1, 6]`, sharing no prefix
with `"z"`) leaves an extension with an empty shared path at the root. -/
theorem put_creates_empty_extension : emptyExt trieABZ = true :=
  rfl

/-- C7 counterexample: the pre-hash byte string is not an injective function
of the node: the two distinct leaves `(path [1, 2], value [3])` and
`(path [1], value [2, 3])` both feed `[1, 2, 3]` to the hash. -/
theorem hashInput_not_injective :
    hashInput (Node.leaf [1, 2] (some [3])) = hashInput (Node.leaf [1] (some [2, 3])) ∧
    Node.leaf [1, 2] (some [3]) ≠ Node.leaf [1] (some [2, 3]) := by
  refine ⟨rfl, ?_⟩
  intro h
  injection h with hk hv
  simp at hk

/-- C7 amended: the leaf pre-hash string is the bare concatenation
`Key ++ Value`, so it is injective only once the boundary is known: two
leaves with present values and remaining paths of equal length that share a
pre-hash string are equal; without the equal-length restriction distinct
leaves can collide. -/
theorem leaf_hashInput_injective_of_length_eq (k1 k2 v1 v2 : List Nat)
    (hlen : k1.length = k2.length)
    (h : hashInput (Node.leaf k1 (some v1)) = hashInput (Node.leaf k2 (some v2))) :
    k1 = k2 ∧ v1 = v2 := by
  simp only [hashInput, Option.getD_some] at h
  exact List.append_inj h hlen

/-- Witness for `leaf_hashInput_injective_of_length_eq` at a concrete input. -/
theorem leaf_hashInput_injective_of_length_eq_witness :
    [1, 2] = ([1, 2] : List Nat) ∧ [3] = ([3] : List Nat) :=
  leaf_hashInput_injective_of_length_eq [1, 2] [1, 2] [3] [3] rfl rfl

lemma getVisited_ne_some_nil (t : Node) (n : List Nat) : getVisited t n ≠ some [] := by
  cases t with
  | null => simp [getVisited]
  | branch cs v =>
      cases n with
      | nil => simp [getVisited]
      | cons a rest => simp [getVisited]
  | ext key next =>
      simp only [getVisited]
      split
      · simp
      · simp
  | leaf key v =>
      simp only [getVisited]
      split <;> simp

lemma getVisited_isSome_eq_get_isSome (t : Node) :
    ∀ n : List Nat, (getVisited t n).isSome = (get t n).isSome := by
  induction t with
  | null => intro n; rfl
  | branch cs v ih =>
      intro n
      cases n with
      | nil => rfl
      | cons a rest => simp [getVisited, get, ih a rest]
  | ext key next ih =>
      intro n
      simp only [getVisited, get]
      split
      · simp [ih]
      · rfl
  | leaf key v =>
      intro n
      simp only [getVisited, get]
      split <;> rfl

lemma proofN_eq_getVisited (t : Node) : ∀ n : List Nat,
    proofN t n =
      (getVisited t n).map (fun p => (trimTerminalBranch p).map hashNode) := by
  induction t with
  | null => intro n; rfl
  | branch cs v ih =>
      intro n
      cases n with
      | nil => rfl
      | cons a rest =>
          simp only [proofN, getVisited, ih a, Option.map_map]
          cases hgv : getVisited (cs a) rest with
          | none => rfl
          | some p =>
              cases p with
              | nil => exact absurd hgv (getVisited_ne_some_nil _ _)
              | cons z zs => simp [Function.comp, trimTerminalBranch]
  | ext key next ih =>
      intro n
      simp only [proofN, getVisited]
      split
      · simp only [ih, Option.map_map]
        cases hgv : getVisited next (n.drop key.length) with
        | none => rfl
        | some p =>
            cases p with
            | nil => exact absurd hgv (getVisited_ne_some_nil _ _)
            | cons z zs => simp [Function.comp, trimTerminalBranch]
      · rfl
  | leaf key v =>
      intro n
      simp only [proofN, getVisited]
      split
      · simp [trimTerminalBranch, Node.isBranch]
      · rfl

/-- C8 counterexample: after `Put("a", [1]); Put("ab", [2])`, the key `"a"`
terminates at a branch; `Get("a")` and `Proof("a")` both succeed, the walk
visits two nodes (extension, branch), but the proof contains only one entry:
the terminal branch is omitted, so `Proof` does not return one entry per
visited node. -/
theorem proof_omits_terminal_branch :
    (Get trieAAB [97]).isSome = true ∧
    (Proof trieAAB [97]).map List.length = some 1 ∧
    (getVisited trieAAB (keyToNibbles [97])).map List.length = some 2 :=
  ⟨rfl, rfl, rfl⟩

/-- C8 amended: `Proof` succeeds exactly when `Get` succeeds (and fails with
the same `key not found` error exactly when `Get` fails), and on success it
returns the `hashNode` encodings, in visit order, of every node on the
root-to-target walk except a terminal branch at which the nibble path ends,
which contributes no entry; in the concrete two-key scenario
(`"key1"`, `"key2"` inserted into an empty trie), `Proof("key1")` returns
exactly 3 entries. -/
theorem Proof_mirrors_Get :
    (∀ (root : Node) (key : List Nat), (Proof root key).isSome = (Get root key).isSome) ∧
    (∀ (root : Node) (key : List Nat),
      Proof root key =
        (getVisited root (keyToNibbles key)).map
          (fun p => (trimTerminalBranch p).map hashNode)) ∧
    (Proof trieKey12 [107, 101, 121, 49]).map List.length = some 3 := by
  refine ⟨fun root key => ?_, fun root key => proofN_eq_getVisited root (keyToNibbles key), rfl⟩
  rw [Proof, Get, proofN_eq_getVisited root (keyToNibbles key),
    ← getVisited_isSome_eq_get_isSome]
  cases getVisited root (keyToNibbles key) <;> rfl

/-- C10: every nibble produced by `keyToNibbles` from a byte key is below 16,
so the indexings `Children[nibbles[0]]` in `Get`, `put`, `del` and `Proof`
are always within the 16-slot array. -/
theorem keyToNibbles_lt_sixteen (key : List Nat) (hkey : ∀ b ∈ key, b < 256) :
    ∀ n ∈ keyToNibbles key, n < 16 := by
  induction key with
  | nil => intro n hn; simp [keyToNibbles] at hn
  | cons b bs ih =>
      intro n hn
      simp only [keyToNibbles, List.mem_cons] at hn
      rcases hn with h1 | h1 | h1
      · subst h1
        have hb : b < 256 := hkey b (List.mem_cons_self b bs)
        omega
      · subst h1
        exact Nat.mod_lt b (by norm_num)
      · exact ih (fun x hx => hkey x (List.mem_cons_of_mem b hx)) n h1

/-- Witness for `keyToNibbles_lt_sixteen` at the concrete key `[97, 255]` and
its first nibble `6`. -/
theorem keyToNibbles_lt_sixteen_witness : 6 < 16 :=
  keyToNibbles_lt_sixteen [97, 255] (by decide) 6 (by decide)

end MPT
